import Mathlib

/-!
Verification development for the OOjs UI widget toolkit: a shallow
embedding of the Window lifecycle, the dropdown input widget (JS and PHP
sides), the indicated-element mixin, the localisation helpers
(`OO.ui.getLocalValue`, `OO.ui.msg`), the frame style-sheet polling of
`OO.ui.Frame.static.transplantStyles`, and the window-manager exclusivity
discipline, together with theorems settling the specification claims.
-/

namespace OOUI

/-- Kind of a single step of a process: synchronous, or deferred
(asynchronous, promise-like). -/
inductive StepKind
  | sync
  | deferred
  deriving DecidableEq, Repr

/-- Modelled from the spec: "Process: an ordered list of steps (synchronous
or deferred) executed in sequence."  The `OO.ui.Process` class itself is not
among the source files; only its callers (`OO.ui.Window`) are. -/
abbrev Process := List StepKind

/-- The four lifecycle stages of a window: setup and ready run during
opening, hold and teardown during closing. -/
inductive Stage
  | setup
  | ready
  | hold
  | teardown
  deriving DecidableEq, Repr

/-- Observable events of a window lifecycle run. -/
inductive Ev
  | stepStart (st : Stage) (i : Nat)
  | stepComplete (st : Stage) (i : Nat)
  | toggleVisible (b : Bool)
  | addClasses (st : Stage)
  | removeClasses (st : Stage)
  | focusContent
  | blurFocused
  | resolveStage (st : Stage)
  | rejectStage (st : Stage)
  deriving DecidableEq, Repr

/-- Modelled from the spec: a process's steps are "executed in sequence",
each step (synchronous or deferred) completing before the next begins.
`stepsTrace st n` is the event trace of running `n` steps of stage `st`. -/
def stepsTrace (st : Stage) : Nat → List Ev
  | 0 => []
  | n + 1 => stepsTrace st n ++ [Ev.stepStart st n, Ev.stepComplete st n]

/-- Trace of `OO.ui.Process.prototype.execute` on a process, for stage
`st` (modelled from the spec, see `stepsTrace`). -/
def execTrace (st : Stage) (p : Process) : List Ev :=
  stepsTrace st p.length

/-- Trace of `OO.ui.Window.prototype.setup`: the window is toggled visible,
then the setup process executes, and once it is done the setup CSS classes
are added and the returned deferred is resolved. -/
def setupTrace (p : Process) : List Ev :=
  Ev.toggleVisible true ::
    (execTrace Stage.setup p ++ [Ev.addClasses Stage.setup, Ev.resolveStage Stage.setup])

/-- Trace of `OO.ui.Window.prototype.ready`: the content is focused, then
the ready process executes, and once it is done the ready CSS classes are
added and the returned deferred is resolved. -/
def readyTrace (p : Process) : List Ev :=
  Ev.focusContent ::
    (execTrace Stage.ready p ++ [Ev.addClasses Stage.ready, Ev.resolveStage Stage.ready])

/-- Trace of `OO.ui.Window.prototype.hold`: the hold process executes, and
once it is done the focused element is blurred, the ready CSS classes are
removed and the returned deferred is resolved. -/
def holdTrace (p : Process) : List Ev :=
  execTrace Stage.hold p ++
    [Ev.blurFocused, Ev.removeClasses Stage.ready, Ev.resolveStage Stage.hold]

/-- Trace of `OO.ui.Window.prototype.teardown`: the teardown process
executes, and once it is done the setup CSS classes are removed, the window
is toggled hidden, and the returned promise is resolved. -/
def teardownTrace (p : Process) : List Ev :=
  execTrace Stage.teardown p ++
    [Ev.removeClasses Stage.setup, Ev.toggleVisible false, Ev.resolveStage Stage.teardown]

/-- Modelled from the spec: during opening the manager executes the
window's setup stage and, after it completes, the ready stage
(`OO.ui.WindowManager.openWindow` is not among the source files). -/
def openingTrace (setupP readyP : Process) : List Ev :=
  setupTrace setupP ++ readyTrace readyP

/-- Modelled from the spec: during closing the manager executes the
window's hold stage and, after it completes, the teardown stage
(`OO.ui.WindowManager.closeWindow` is not among the source files). -/
def closingTrace (holdP teardownP : Process) : List Ev :=
  holdTrace holdP ++ teardownTrace teardownP

/-- The four stage traces under one roof, selected by the stage. -/
def stageTrace : Stage → Process → List Ev
  | Stage.setup, p => setupTrace p
  | Stage.ready, p => readyTrace p
  | Stage.hold, p => holdTrace p
  | Stage.teardown, p => teardownTrace p

/-- Events a stage emits before its process is executed: the visibility
toggle in setup, the content focus in ready, nothing in hold and
teardown. -/
def stagePre : Stage → List Ev
  | Stage.setup => [Ev.toggleVisible true]
  | Stage.ready => [Ev.focusContent]
  | Stage.hold => []
  | Stage.teardown => []

/-- Events a stage emits once its process is done, in order, ending with
the resolution of the stage's promise. -/
def stagePost : Stage → List Ev
  | Stage.setup => [Ev.addClasses Stage.setup, Ev.resolveStage Stage.setup]
  | Stage.ready => [Ev.addClasses Stage.ready, Ev.resolveStage Stage.ready]
  | Stage.hold => [Ev.blurFocused, Ev.removeClasses Stage.ready, Ev.resolveStage Stage.hold]
  | Stage.teardown =>
      [Ev.removeClasses Stage.setup, Ev.toggleVisible false, Ev.resolveStage Stage.teardown]

/-- Whether an event is a process-step event (start or completion) of the
given stage. -/
def isStepEv (st : Stage) : Ev → Bool
  | Ev.stepStart s _ => s == st
  | Ev.stepComplete s _ => s == st
  | _ => false

/-- Whether an event is a CSS class addition or removal. -/
def isClassChange : Ev → Bool
  | Ev.addClasses _ => true
  | Ev.removeClasses _ => true
  | _ => false

/-- Whether an event is a state change of the window in the sense of claim
C6: a CSS class addition or removal, or the visibility toggle. -/
def isStateChange : Ev → Bool
  | Ev.addClasses _ => true
  | Ev.removeClasses _ => true
  | Ev.toggleVisible _ => true
  | _ => false

/-- State of an `OO.ui.Window`: its manager (if attached), whether its
contents have been built by `initialize`, its visibility, and the processes
its `getSetupProcess` / `getReadyProcess` / `getHoldProcess` /
`getTeardownProcess` methods return. -/
structure WindowState where
  manager : Option Nat
  inited : Bool
  visible : Bool
  setupP : Process
  readyP : Process
  holdP : Process
  teardownP : Process
  deriving DecidableEq, Repr

namespace Window

/-- `OO.ui.Window.prototype.initialize` (spelt `initialise` here): throws
when no manager is attached, otherwise builds the window contents.  The
second component is the thrown error message, `none` when no error is
thrown; the first component is the window state afterwards. -/
def initialise (w : WindowState) : WindowState × Option String :=
  if w.manager.isNone then
    (w, some ("Cannot initialize window, must be attached to a manager"))
  else
    ({ w with inited := true }, none)

/-- `OO.ui.Window.prototype.setManager`: throws when the window already has
a manager; otherwise records the manager, initialises the window and
returns it (chainable). -/
def setManager (w : WindowState) (m : Nat) : WindowState × Option String :=
  if w.manager.isSome then
    (w, some ("Cannot set window manager, window already has a manager"))
  else
    initialise { w with manager := some m }

/-- `OO.ui.Window.prototype.open`: throws when no manager is attached,
otherwise delegates to the manager's `openWindow` (modelled from the spec
as producing the opening trace; `OO.ui.WindowManager` is not among the
source files). -/
def openWin (w : WindowState) : Except String (List Ev) :=
  if w.manager.isNone then
    Except.error ("Cannot open window, must be attached to a manager")
  else
    Except.ok (openingTrace w.setupP w.readyP)

/-- `OO.ui.Window.prototype.close`: throws when no manager is attached,
otherwise delegates to the manager's `closeWindow` (modelled from the spec
as producing the closing trace). -/
def closeWin (w : WindowState) : Except String (List Ev) :=
  if w.manager.isNone then
    Except.error ("Cannot close window, must be attached to a manager")
  else
    Except.ok (closingTrace w.holdP w.teardownP)

/-- `OO.ui.Window.prototype.updateSize`: throws when no manager is
attached, otherwise delegates to the manager's `updateWindowSize`
(modelled from the spec as a non-throwing size update) and returns the
window (chainable). -/
def updateSize (w : WindowState) : Except String WindowState :=
  if w.manager.isNone then
    Except.error ("Cannot update window size, must be attached to a manager")
  else
    Except.ok w

end Window

/-- A theme object (`OOUI\Theme` on the PHP side); its behaviour beyond
identity is irrelevant to the claims. -/
structure Theme where
  id : Nat
  deriving DecidableEq, Repr

/-- `Theme::setSingleton`: replaces the stored singleton theme. -/
def Theme.setSingleton (_s : Option Theme) (t : Theme) : Option Theme :=
  some t

/-- `Theme::singleton`: throws when no singleton theme has been set,
otherwise returns it. -/
def Theme.getSingleton (s : Option Theme) : Except String Theme :=
  match s with
  | none => Except.error ("OOUI\\Theme::singleton was called with no singleton theme set.")
  | some t => Except.ok t

/-- A menu option as passed to `setOptions`, in the format
`{ data: …, label: … }`; HTML attribute values are strings. -/
structure MenuOpt where
  data : String
  label : Option String
  deriving DecidableEq, Repr

/-- `OO.ui.SelectWidget.prototype.getItemFromData` at the level of item
data: the first menu item whose data equals the given value. -/
def getItemFromData (items : List String) (v : String) : Option String :=
  items.find? (fun d => d = v)

/-- Resulting value of `OO.ui.DropdownInputWidget.prototype.setOptions`
(JS side): the menu is rebuilt from `options`; the previous value is kept
when still available in the rebuilt menu, otherwise the value is reset to
the first option's data when there is one. -/
def setOptionsJs (value : String) (options : List MenuOpt) : String :=
  let menuItems := options.map (fun o => o.data)
  match getItemFromData menuItems value with
  | some _ => value
  | none =>
    match options with
    | [] => value
    | o :: _ => o.data

/-- Resulting value of `OOUI\DropdownInputWidget::setOptions` (PHP side):
the loop over `options` records whether the previous value occurs among the
option data (`$isValueAvailable`); afterwards the previous value is kept
when available, otherwise reset to the first option's data when there is
one. -/
def setOptionsPhp (value : String) (options : List MenuOpt) : String :=
  let isValueAvailable :=
    options.foldl (fun acc o => acc || decide (value = o.data)) false
  if isValueAvailable then value
  else
    match options with
    | [] => value
    | o :: _ => o.data

/-- The value computed by `setOptions` as the specification describes it:
kept when some option's data equals it, otherwise the first option's data
when there is one, otherwise unchanged. -/
def setOptionsSpec (value : String) (options : List MenuOpt) : String :=
  if options.any (fun o => decide (o.data = value)) then value
  else
    match options with
    | [] => value
    | o :: _ => o.data

/-- jQuery `addClass` on a class list: appends the class unless present. -/
def addClass (cs : List String) (c : String) : List String :=
  if c ∈ cs then cs else cs ++ [c]

/-- jQuery `removeClass` on a class list. -/
def removeClass (cs : List String) (c : String) : List String :=
  cs.filter (fun x => x ≠ c)

/-- jQuery `toggleClass` with an explicit state flag. -/
def toggleClass (cs : List String) (c : String) (b : Bool) : List String :=
  if b then addClass cs c else removeClass cs c

/-- A JavaScript value as far as `setIndicator` inspects it: a string, or
anything that is not a string. -/
inductive JsArg
  | str (s : String)
  | nonString
  deriving DecidableEq, Repr

/-- `String.prototype.trim` on the character list: drop whitespace from the
front, then from the back. -/
def trimChars (l : List Char) : List Char :=
  (l.dropWhile Char.isWhitespace).rdropWhile Char.isWhitespace

/-- `String.prototype.trim`. -/
def jsTrim (s : String) : String :=
  String.mk (trimChars s.data)

/-- State of an `OO.ui.IndicatedElement`: the symbolic indicator name (or
null) and the class lists of the `$indicator` and `$element` nodes. -/
structure IndicatedElement where
  indicator : Option String
  indicatorClasses : List String
  elementClasses : List String
  deriving DecidableEq, Repr

/-- `OO.ui.IndicatedElement.prototype.setIndicator`: clears the previous
indicator class, installs the trimmed value when it is a non-empty string,
and toggles the `oo-ui-indicatedElement` class on the element to match. -/
def setIndicator (el : IndicatedElement) (value : JsArg) : IndicatedElement :=
  let el1 :=
    match el.indicator with
    | some ind =>
        { el with
          indicatorClasses := removeClass el.indicatorClasses ("oo-ui-indicator-" ++ ind),
          indicator := none }
    | none => el
  let el2 :=
    match value with
    | JsArg.str s =>
        let v := jsTrim s
        if v.data.length ≠ 0 then
          { el1 with
            indicatorClasses := addClass el1.indicatorClasses ("oo-ui-indicator-" ++ v),
            indicator := some v }
        else el1
    | JsArg.nonString => el1
  { el2 with
    elementClasses := toggleClass el2.elementClasses ("oo-ui-indicatedElement") el2.indicator.isSome }

/-- Property lookup on a JS object modelled as an ordered association list
(enumeration order): `obj[k]`, `undefined` (`none`) when the key is absent. -/
def jsGet (obj : List (String × String)) (k : String) : Option String :=
  (obj.find? (fun p => p.1 = k)).map (fun p => p.2)

/-- JS truthiness of a looked-up value: `undefined` and the empty string
are falsy, every other string is truthy. -/
def isTruthy : Option String → Bool
  | some v => v != ""
  | none => false

/-- The `for` loop over the user's languages in `OO.ui.getLocalValue`:
returns `obj[lang]` for the first language whose entry is truthy. -/
def userLangValue (obj : List (String × String)) : List String → Option String
  | [] => none
  | l :: ls => if isTruthy (jsGet obj l) then jsGet obj l else userLangValue obj ls

/-- `OO.ui.getLocalValue( obj, lang, fallback )`, parametrised by the list
returned by `OO.ui.getUserLanguages` (the default implementation returns
`[ 'en' ]` but embedders override it). -/
def getLocalValue (obj : List (String × String)) (userLangs : List String)
    (lang fallback : String) : Option String :=
  if isTruthy (jsGet obj lang) then jsGet obj lang
  else
    match userLangValue obj userLangs with
    | some v => some v
    | none =>
      if isTruthy (jsGet obj fallback) then jsGet obj fallback
      else
        match obj with
        | [] => none
        | kv :: _ => some kv.2

/-- `parseInt( n, 10 )` on a run of decimal digits. -/
def digitsToNat (ds : List Char) : Nat :=
  ds.foldl (fun n c => n * 10 + (c.toNat - 48)) 0

/-- `params[i - 1] !== undefined ? params[i - 1] : …` for match number `n`:
the substitution parameter used for `$n`, when defined.  Parameters are
`Option String` so that an explicitly passed `undefined` is distinct from a
missing one (both are undefined). -/
def paramAt (params : List (Option String)) (n : Nat) : Option String :=
  if n = 0 then none
  else
    match params.get? (n - 1) with
    | some (some p) => some p
    | _ => none

/-- `message.replace( /\$(\d+)/g, … )`: scan the message left to right;
at each `$` followed by a non-empty maximal digit run `ds`, substitute the
corresponding parameter when it is defined and keep the literal text
otherwise; the replacement text itself is not re-scanned. -/
def substDollars (params : List (Option String)) : List Char → List Char
  | [] => []
  | c :: rest =>
    if c = '$' then
      let ds := rest.takeWhile Char.isDigit
      if ds.isEmpty then c :: substDollars params rest
      else
        match paramAt params (digitsToNat ds) with
        | some p => p.data ++ substDollars params (rest.dropWhile Char.isDigit)
        | none => c :: (ds ++ substDollars params (rest.dropWhile Char.isDigit))
    else
      c :: substDollars params rest
termination_by l => l.length
decreasing_by
  all_goals simp only [List.length_cons]
  all_goals first
    | exact Nat.lt_succ_of_le (List.dropWhile_suffix _).sublist.length_le
    | exact Nat.lt_succ_self _

/-- The default message store of `OO.ui.msg`. -/
def messages : List (String × String) :=
  [("ooui-dialog-action-close", "Close"),
   ("ooui-outline-control-move-down", "Move item down"),
   ("ooui-outline-control-move-up", "Move item up"),
   ("ooui-toolbar-more", "More")]

/-- `OO.ui.msg( key, params… )`: the message for `key` with `$n`
substitution performed, or the `'[' + key + ']'` placeholder when no
message exists for the key. -/
def msg (key : String) (params : List (Option String)) : String :=
  match jsGet messages key with
  | some m => String.mk (substDollars params m.data)
  | none => "[" ++ key ++ "]"

/-- A style sheet of the parent document as `transplantStyles` sees it:
whether its owner node is a `<link>` (an external style sheet), and the
first poll tick at which its poll node is observed with the synthetic
font-family value (i.e. at which the `@import` has finished). -/
structure SheetInfo where
  isLink : Bool
  loadedAt : Nat
  deriving DecidableEq, Repr

/-- The `for` loop of `transplantStyles` when a callback was supplied:
each external (`<link>`) style sheet contributes one poll node, in
document order; other sheets are merely copied. -/
def transplantLoop (cb : Bool) : List SheetInfo → List SheetInfo
  | [] => []
  | s :: rest => (if cb && s.isLink then [s] else []) ++ transplantLoop cb rest

/-- One round of the `while` loop of `pollExternalStylesheets` at tick `t`:
poll nodes are removed from the front of the pending list while the front
node is observed with the synthetic font-family value. -/
def dropLoaded (t : Nat) (pending : List SheetInfo) : List SheetInfo :=
  pending.dropWhile (fun s => s.loadedAt ≤ t)

/-- The polling recursion of `pollExternalStylesheets`: at each tick the
loaded prefix is dropped; when no poll node remains the tick is returned
(the callback fires then); `fuel` bounds the number of polls considered. -/
def pollFire (pending : List SheetInfo) (t fuel : Nat) : Option Nat :=
  match fuel with
  | 0 => none
  | f + 1 =>
    let p := dropLoaded t pending
    if p = [] then some t else pollFire p (t + 1) f

/-- Observable events of a `transplantStyles` polling run. -/
inductive FrameEv
  | pollNodesRemoved
  | callbackInvoked
  deriving DecidableEq, Repr

/-- Event trace of the polling recursion: when the pending list empties,
the poll nodes are removed and then the callback is invoked, once. -/
def pollTrace (pending : List SheetInfo) (t fuel : Nat) : List FrameEv :=
  match fuel with
  | 0 => []
  | f + 1 =>
    let p := dropLoaded t pending
    if p = [] then [FrameEv.pollNodesRemoved, FrameEv.callbackInvoked]
    else pollTrace p (t + 1) f

/-- Largest load tick among a list of poll nodes. -/
def maxLoad (l : List SheetInfo) : Nat :=
  l.foldr (fun s m => max s.loadedAt m) 0

/-- Phase of a window within its manager's lifecycle. -/
inductive Phase
  | closed
  | opening
  | opened
  | closing
  deriving DecidableEq, Repr

/-- Lifecycle actions a window manager performs (modelled from the spec:
`OO.ui.WindowManager` is not among the source files). -/
inductive MgrAct
  | beginOpen (w : Nat)
  | finishOpen (w : Nat)
  | beginClose (w : Nat)
  | finishClose (w : Nat)
  deriving DecidableEq, Repr

/-- Whether every managed window is closed. -/
def allClosed (s : List Phase) : Bool :=
  s.all (fun p => p == Phase.closed)

/-- Modelled from the spec: the manager's state is the phase of each of
its windows; opening begins only when no window is open ("one window open
at a time per manager"), and each transition advances one window's phase
through opening → opened → closing → closed. -/
def mgrStep (s : List Phase) : MgrAct → Option (List Phase)
  | MgrAct.beginOpen w =>
    if decide (w < s.length) && allClosed s then some (s.set w Phase.opening) else none
  | MgrAct.finishOpen w =>
    if s.get? w == some Phase.opening then some (s.set w Phase.opened) else none
  | MgrAct.beginClose w =>
    if s.get? w == some Phase.opened then some (s.set w Phase.closing) else none
  | MgrAct.finishClose w =>
    if s.get? w == some Phase.closing then some (s.set w Phase.closed) else none

/-- Manager states reachable from the initial all-closed state of `n`
windows. -/
inductive Reachable (n : Nat) : List Phase → Prop
  | init : Reachable n (List.replicate n Phase.closed)
  | step {s s' : List Phase} (a : MgrAct) :
      Reachable n s → mgrStep s a = some s' → Reachable n s'

/-- Number of windows that are open or in their opening/closing
transition. -/
def activeCount (s : List Phase) : Nat :=
  s.countP (fun p => p != Phase.closed)

end OOUI

/-! ## Claim theorems -/

/-- Claim C2: re-attaching an already-attached manager fails fast.  For
every window, `setManager` throws (and leaves the window, in particular its
manager, unchanged) when the window already has a manager, and otherwise
records the manager, initialises the window and returns it. -/
theorem setManager_fails_fast (w : OOUI.WindowState) (m m0 : Nat) :
    (w.manager = some m0 →
      OOUI.Window.setManager w m =
        (w, some ("Cannot set window manager, window already has a manager"))) ∧
    (w.manager = none →
      OOUI.Window.setManager w m =
        ({ w with manager := some m, inited := true }, none)) := by
  constructor
  · intro h
    simp [OOUI.Window.setManager, h]
  · intro h
    simp [OOUI.Window.setManager, OOUI.Window.initialise, h]

/-- Witness for `setManager_fails_fast` at concrete windows. -/
theorem setManager_fails_fast_witness :
    OOUI.Window.setManager ⟨some 3, true, false, [], [], [], []⟩ 7 =
      (⟨some 3, true, false, [], [], [], []⟩,
        some ("Cannot set window manager, window already has a manager")) ∧
    OOUI.Window.setManager ⟨none, false, false, [], [], [], []⟩ 7 =
      (⟨some 7, true, false, [], [], [], []⟩, none) :=
  ⟨(setManager_fails_fast ⟨some 3, true, false, [], [], [], []⟩ 7 3).1 rfl,
   (setManager_fails_fast ⟨none, false, false, [], [], [], []⟩ 7 0).2 rfl⟩

/-- Claim C3: operating before initialisation fails fast.  With no manager
attached, `open`, `close`, `updateSize` and `initialize` each throw without
performing their operation; `Theme::singleton` throws when no singleton
theme is set.  Conversely, with a manager attached none of the window
operations throws, and with a singleton theme set `Theme::singleton` does
not throw. -/
theorem uninitialised_ops_fail_fast (w : OOUI.WindowState) (s : Option OOUI.Theme)
    (t : OOUI.Theme) :
    (w.manager = none →
      (∃ e, OOUI.Window.openWin w = Except.error e) ∧
      (∃ e, OOUI.Window.closeWin w = Except.error e) ∧
      (∃ e, OOUI.Window.updateSize w = Except.error e) ∧
      (∃ e, OOUI.Window.initialise w = (w, some e))) ∧
    (w.manager ≠ none →
      (∃ tr, OOUI.Window.openWin w = Except.ok tr) ∧
      (∃ tr, OOUI.Window.closeWin w = Except.ok tr) ∧
      OOUI.Window.updateSize w = Except.ok w ∧
      OOUI.Window.initialise w = ({ w with inited := true }, none)) ∧
    (∃ e, OOUI.Theme.getSingleton none = Except.error e) ∧
    OOUI.Theme.getSingleton (OOUI.Theme.setSingleton s t) = Except.ok t := by
  refine ⟨fun h => ?_, fun h => ?_, ⟨_, rfl⟩, rfl⟩
  · simp [OOUI.Window.openWin, OOUI.Window.closeWin, OOUI.Window.updateSize,
      OOUI.Window.initialise, h]
  · have h' : w.manager.isNone = false := by
      cases hm : w.manager with
      | none => exact absurd hm h
      | some m => rfl
    simp [OOUI.Window.openWin, OOUI.Window.closeWin, OOUI.Window.updateSize,
      OOUI.Window.initialise, h']

/-- Witness for `uninitialised_ops_fail_fast` at concrete windows and
themes. -/
theorem uninitialised_ops_fail_fast_witness :
    (∃ e, OOUI.Window.openWin ⟨none, false, false, [], [], [], []⟩ = Except.error e) ∧
    OOUI.Window.updateSize ⟨some 1, true, false, [], [], [], []⟩ =
      Except.ok ⟨some 1, true, false, [], [], [], []⟩ ∧
    OOUI.Theme.getSingleton (OOUI.Theme.setSingleton none ⟨5⟩) = Except.ok ⟨5⟩ :=
  ⟨(uninitialised_ops_fail_fast ⟨none, false, false, [], [], [], []⟩ none ⟨5⟩).1 rfl |>.1,
   ((uninitialised_ops_fail_fast ⟨some 1, true, false, [], [], [], []⟩ none ⟨5⟩).2.1
      (by simp)).2.2.1,
   (uninitialised_ops_fail_fast ⟨some 1, true, false, [], [], [], []⟩ none ⟨5⟩).2.2.2⟩

/-- The `$isValueAvailable` fold of the PHP `setOptions` loop computes
whether the previous value occurs among the option data. -/
theorem foldl_or_eq_any (value : String) (options : List OOUI.MenuOpt) (acc : Bool) :
    options.foldl (fun a o => a || decide (value = o.data)) acc =
      (acc || options.any (fun o => decide (o.data = value))) := by
  induction options generalizing acc with
  | nil => simp
  | cons o os ih =>
    simp only [List.foldl_cons, List.any_cons, ih, Bool.or_assoc]
    have : decide (value = o.data) = decide (o.data = value) := by
      simp [eq_comm]
    rw [this]

/-- The JS `setOptions` computes the value the specification describes. -/
theorem setOptionsJs_eq_spec (v : String) (options : List OOUI.MenuOpt) :
    OOUI.setOptionsJs v options = OOUI.setOptionsSpec v options := by
  unfold OOUI.setOptionsJs OOUI.setOptionsSpec OOUI.getItemFromData
  cases h : (options.map (fun o => o.data)).find? (fun d => decide (d = v)) with
  | some d =>
    have hd : d = v := by simpa using List.find?_some h
    have hmem : d ∈ options.map (fun o => o.data) := List.mem_of_find?_eq_some h
    obtain ⟨o, ho, hod⟩ := List.mem_map.mp hmem
    have hany : options.any (fun o => decide (o.data = v)) = true :=
      List.any_eq_true.mpr ⟨o, ho, by simp [hod, hd]⟩
    simp [h, hany]
  | none =>
    have hall := List.find?_eq_none.mp h
    have hany : options.any (fun o => decide (o.data = v)) = false := by
      rw [List.any_eq_false]
      intro o ho
      simpa using hall o.data (List.mem_map.mpr ⟨o, ho, rfl⟩)
    simp [h, hany]

/-- The PHP `setOptions` computes the value the specification describes. -/
theorem setOptionsPhp_eq_spec (v : String) (options : List OOUI.MenuOpt) :
    OOUI.setOptionsPhp v options = OOUI.setOptionsSpec v options := by
  unfold OOUI.setOptionsPhp OOUI.setOptionsSpec
  rw [foldl_or_eq_any]
  simp

/-- Claim C4: the JS `DropdownInputWidget.setOptions` and its PHP
counterpart compute the same resulting value, and that value is the one the
specification describes: the previous value when still among the option
data, otherwise the first option's data when there is one, otherwise the
previous value. -/
theorem dropdown_setOptions_refinement (v : String) (options : List OOUI.MenuOpt) :
    OOUI.setOptionsJs v options = OOUI.setOptionsPhp v options ∧
    OOUI.setOptionsJs v options = OOUI.setOptionsSpec v options :=
  ⟨(setOptionsJs_eq_spec v options).trans (setOptionsPhp_eq_spec v options).symm,
   setOptionsJs_eq_spec v options⟩

/-- `addClass` makes the class present. -/
theorem mem_addClass (cs : List String) (c : String) : c ∈ OOUI.addClass cs c := by
  unfold OOUI.addClass
  split
  · assumption
  · simp

/-- `removeClass` makes the class absent. -/
theorem not_mem_removeClass (cs : List String) (c : String) : c ∉ OOUI.removeClass cs c := by
  simp [OOUI.removeClass]

/-- `toggleClass` makes the class membership match the flag. -/
theorem mem_toggleClass (cs : List String) (c : String) (b : Bool) :
    c ∈ OOUI.toggleClass cs c b ↔ b = true := by
  cases b with
  | false =>
    rw [show OOUI.toggleClass cs c false = OOUI.removeClass cs c from rfl]
    simp [OOUI.removeClass]
  | true =>
    rw [show OOUI.toggleClass cs c true = OOUI.addClass cs c from rfl]
    simp [mem_addClass cs c]

/-- A non-empty trimmed character list starts with a non-whitespace
character. -/
theorem trimChars_head_not_ws (l : List Char) (h : OOUI.trimChars l ≠ []) :
    Char.isWhitespace ((OOUI.trimChars l).head h) = false := by
  have hm : l.dropWhile Char.isWhitespace ≠ [] := by
    intro hnil
    apply h
    unfold OOUI.trimChars
    rw [hnil, List.rdropWhile_nil]
  have hpre : OOUI.trimChars l <+: l.dropWhile Char.isWhitespace :=
    List.rdropWhile_prefix _ _
  have hh := hpre.head h
  rw [hh]
  exact List.head_dropWhile_not _ _ _

/-- A non-empty trimmed character list ends with a non-whitespace
character. -/
theorem trimChars_last_not_ws (l : List Char) (h : OOUI.trimChars l ≠ []) :
    Char.isWhitespace ((OOUI.trimChars l).getLast h) = false := by
  have := List.rdropWhile_last_not Char.isWhitespace (l.dropWhile Char.isWhitespace) h
  simpa using this

/-- The indicator stored by `setIndicator`: the trimmed value when the
argument is a string with non-empty trimmed form, `null` otherwise. -/
theorem setIndicator_indicator (el : OOUI.IndicatedElement) (v : OOUI.JsArg) :
    (OOUI.setIndicator el v).indicator =
      (match v with
       | OOUI.JsArg.str s =>
         if (OOUI.jsTrim s).data = [] then none else some (OOUI.jsTrim s)
       | OOUI.JsArg.nonString => none) := by
  unfold OOUI.setIndicator
  cases v with
  | str s =>
    by_cases hv : (OOUI.jsTrim s).data = []
    · have hlen : (OOUI.jsTrim s).length = 0 := by
        show (OOUI.jsTrim s).data.length = 0
        rw [hv]
        rfl
      cases hel : el.indicator <;> simp [hel, hv, hlen]
    · have hlen : (OOUI.jsTrim s).length ≠ 0 := by
        show (OOUI.jsTrim s).data.length ≠ 0
        intro hlen
        exact hv (List.length_eq_zero.mp hlen)
      cases hel : el.indicator <;> simp [hel, hv, hlen]
  | nonString =>
    cases hel : el.indicator <;> simp [hel]

/-- The `oo-ui-indicatedElement` class is carried exactly when the
indicator is non-null after `setIndicator`. -/
theorem setIndicator_class_iff (el : OOUI.IndicatedElement) (v : OOUI.JsArg) :
    ("oo-ui-indicatedElement") ∈ (OOUI.setIndicator el v).elementClasses ↔
      (OOUI.setIndicator el v).indicator ≠ none := by
  unfold OOUI.setIndicator
  rw [mem_toggleClass, Option.isSome_iff_ne_none]

/-- Claim C10: `setIndicator` preserves the indicator invariant.  After
`setIndicator(value)` the indicator is the trimmed value when the argument
is a string whose trimmed form is non-empty and `null` otherwise; any
stored indicator is a non-empty string without leading or trailing
whitespace; and the element carries the `oo-ui-indicatedElement` class
exactly when the indicator is non-null. -/
theorem setIndicator_invariant (el : OOUI.IndicatedElement) (v : OOUI.JsArg) :
    (OOUI.setIndicator el v).indicator =
      (match v with
       | OOUI.JsArg.str s =>
         if (OOUI.jsTrim s).data = [] then none else some (OOUI.jsTrim s)
       | OOUI.JsArg.nonString => none) ∧
    (∀ s, (OOUI.setIndicator el v).indicator = some s →
      ∃ h : s.data ≠ [],
        Char.isWhitespace (s.data.head h) = false ∧
        Char.isWhitespace (s.data.getLast h) = false) ∧
    (("oo-ui-indicatedElement") ∈ (OOUI.setIndicator el v).elementClasses ↔
      (OOUI.setIndicator el v).indicator ≠ none) := by
  refine ⟨setIndicator_indicator el v, fun s hs => ?_, setIndicator_class_iff el v⟩
  rw [setIndicator_indicator el v] at hs
  cases v with
  | nonString => simp at hs
  | str s0 =>
    by_cases hv : (OOUI.jsTrim s0).data = []
    · simp [hv] at hs
    · simp only [hv, if_false] at hs
      cases hs
      exact ⟨hv, trimChars_head_not_ws s0.data hv, trimChars_last_not_ws s0.data hv⟩

/-- Witness for `setIndicator_invariant` at a concrete element and
argument. -/
theorem setIndicator_invariant_witness :
    ∃ h : ("alert" : String).data ≠ [],
      Char.isWhitespace (("alert" : String).data.head h) = false ∧
      Char.isWhitespace (("alert" : String).data.getLast h) = false :=
  (setIndicator_invariant ⟨none, [], []⟩ (OOUI.JsArg.str " alert ")).2.1 "alert" (by decide)

/-- The user-language loop of `getLocalValue` returns the entry of the
first user language whose entry is truthy, and `undefined` when there is
none. -/
theorem userLangValue_find (obj : List (String × String)) (ls : List String) :
    (∀ l, ls.find? (fun l => OOUI.isTruthy (OOUI.jsGet obj l)) = some l →
      OOUI.userLangValue obj ls = OOUI.jsGet obj l) ∧
    (ls.find? (fun l => OOUI.isTruthy (OOUI.jsGet obj l)) = none →
      OOUI.userLangValue obj ls = none) := by
  induction ls with
  | nil => exact ⟨fun l hl => by simp at hl, fun _ => rfl⟩
  | cons a ls ih =>
    by_cases ha : OOUI.isTruthy (OOUI.jsGet obj a) = true
    · constructor
      · intro l hl
        simp only [List.find?_cons, ha] at hl
        cases hl
        simp [OOUI.userLangValue, ha]
      · intro hl
        simp only [List.find?_cons, ha] at hl
        cases hl
    · have ha' : OOUI.isTruthy (OOUI.jsGet obj a) = false := Bool.eq_false_iff.mpr ha
      constructor
      · intro l hl
        simp only [List.find?_cons, ha'] at hl
        simp only [OOUI.userLangValue, ha']
        rw [if_neg (by simp [ha'])]
        exact ih.1 l hl
      · intro hl
        simp only [List.find?_cons, ha'] at hl
        simp only [OOUI.userLangValue]
        rw [if_neg (by simp [ha'])]
        exact ih.2 hl

/-- Claim C8: `OO.ui.getLocalValue` resolves in the fixed priority order
requested language, first truthy user language, fallback language, first
existing entry, `undefined`. -/
theorem getLocalValue_priority (obj : List (String × String)) (langs : List String)
    (lang fallback : String) :
    (OOUI.isTruthy (OOUI.jsGet obj lang) = true →
      OOUI.getLocalValue obj langs lang fallback = OOUI.jsGet obj lang) ∧
    (OOUI.isTruthy (OOUI.jsGet obj lang) = false →
      (∀ l, langs.find? (fun l => OOUI.isTruthy (OOUI.jsGet obj l)) = some l →
        OOUI.getLocalValue obj langs lang fallback = OOUI.jsGet obj l) ∧
      (langs.find? (fun l => OOUI.isTruthy (OOUI.jsGet obj l)) = none →
        (OOUI.isTruthy (OOUI.jsGet obj fallback) = true →
          OOUI.getLocalValue obj langs lang fallback = OOUI.jsGet obj fallback) ∧
        (OOUI.isTruthy (OOUI.jsGet obj fallback) = false →
          (∀ k v rest, obj = (k, v) :: rest →
            OOUI.getLocalValue obj langs lang fallback = some v) ∧
          (obj = [] → OOUI.getLocalValue obj langs lang fallback = none)))) := by
  constructor
  · intro h
    simp [OOUI.getLocalValue, h]
  · intro h
    have hbridge := userLangValue_find obj langs
    constructor
    · intro l hl
      have hval : OOUI.userLangValue obj langs = OOUI.jsGet obj l := hbridge.1 l hl
      have htr : OOUI.isTruthy (OOUI.jsGet obj l) = true := by
        simpa using List.find?_some hl
      cases hjv : OOUI.jsGet obj l with
      | none => rw [hjv, OOUI.isTruthy] at htr; cases htr
      | some v => simp [OOUI.getLocalValue, h, hval, hjv]
    · intro hnone
      have hval : OOUI.userLangValue obj langs = none := hbridge.2 hnone
      refine ⟨fun hfb => ?_, fun hfb => ⟨?_, ?_⟩⟩
      · simp [OOUI.getLocalValue, h, hval, hfb]
      · intro k v rest hobj
        subst hobj
        simp [OOUI.getLocalValue, h, hval, hfb]
      · intro hobj
        subst hobj
        simp [OOUI.getLocalValue, h, hval, hfb]

/-- Witness for `getLocalValue_priority`: the requested language is falsy,
so the first truthy user language wins. -/
theorem getLocalValue_priority_witness :
    OOUI.getLocalValue [("de", "Hallo"), ("en", "Hello")] ["fr", "en"] "pl" "de" =
      OOUI.jsGet [("de", "Hallo"), ("en", "Hello")] "en" :=
  ((getLocalValue_priority [("de", "Hallo"), ("en", "Hello")] ["fr", "en"] "pl" "de").2
      (by decide)).1 "en" (by decide)

/-- Splitting a maximal digit run: `takeWhile`/`dropWhile` on a list that
starts with a run satisfying the predicate followed by a list that does
not. -/
theorem takeWhile_dropWhile_split {p : Char → Bool} (ds tail : List Char)
    (hds : ∀ c ∈ ds, p c = true)
    (htail : ∀ h : tail ≠ [], p (tail.head h) = false) :
    (ds ++ tail).takeWhile p = ds ∧ (ds ++ tail).dropWhile p = tail := by
  induction ds with
  | nil =>
    cases tail with
    | nil => exact ⟨rfl, rfl⟩
    | cons c t =>
      have hc : p c = false := htail (by simp)
      constructor
      · simp [List.takeWhile_cons, hc]
      · simp [List.dropWhile_cons, hc]
  | cons d ds ih =>
    have hd : p d = true := hds d (by simp)
    have ih' := ih (fun c hc => hds c (by simp [hc]))
    constructor
    · simpa [List.takeWhile_cons, hd] using ih'.1
    · simpa [List.dropWhile_cons, hd] using ih'.2

/-- Claim C9: `OO.ui.msg` is total on its key.  An unknown key yields the
`'[' + key + ']'` placeholder; a known key yields the message with `$n`
substitution performed, where the substitution scan leaves ordinary
characters alone, leaves a bare `$` alone, replaces `$` followed by a
maximal digit run by the corresponding parameter when it is defined, and
keeps the literal text when that parameter is undefined or missing. -/
theorem msg_total_and_subst (key : String) (params : List (Option String)) :
    (OOUI.jsGet OOUI.messages key = none →
      OOUI.msg key params = "[" ++ key ++ "]") ∧
    (∀ m, OOUI.jsGet OOUI.messages key = some m →
      OOUI.msg key params = String.mk (OOUI.substDollars params m.data)) ∧
    OOUI.substDollars params [] = [] ∧
    (∀ c l, ¬ c = '$' →
      OOUI.substDollars params (c :: l) = c :: OOUI.substDollars params l) ∧
    (∀ l, l.takeWhile Char.isDigit = [] →
      OOUI.substDollars params ('$' :: l) = '$' :: OOUI.substDollars params l) ∧
    (∀ ds tail, ds ≠ [] → (∀ c ∈ ds, c.isDigit = true) →
      (∀ h : tail ≠ [], (tail.head h).isDigit = false) →
      OOUI.substDollars params ('$' :: (ds ++ tail)) =
        (match OOUI.paramAt params (OOUI.digitsToNat ds) with
         | some p => p.data
         | none => '$' :: ds) ++ OOUI.substDollars params tail) := by
  refine ⟨fun h => ?_, fun m h => ?_, by unfold OOUI.substDollars; rfl,
    fun c l hc => ?_, fun l hl => ?_, fun ds tail hne hds htail => ?_⟩
  · unfold OOUI.msg
    rw [h]
  · unfold OOUI.msg
    rw [h]
  · conv_lhs => unfold OOUI.substDollars
    rw [if_neg hc]
  · conv_lhs => unfold OOUI.substDollars
    rw [if_pos rfl]
    simp only [hl, List.isEmpty_nil, if_true]
  · have hsplit := takeWhile_dropWhile_split (p := Char.isDigit) ds tail hds htail
    conv_lhs => unfold OOUI.substDollars
    rw [if_pos rfl]
    simp only [hsplit.1, hsplit.2]
    rw [if_neg (by simpa [List.isEmpty_iff] using hne)]
    cases hpa : OOUI.paramAt params (OOUI.digitsToNat ds) with
    | some p => simp
    | none => simp

/-- Witness for `msg_total_and_subst`: an unknown key yields its
placeholder, a known key yields its message, and a `$1` occurrence is
substituted when the first parameter is defined. -/
theorem msg_total_and_subst_witness :
    OOUI.msg "missing-key" [] = "[" ++ "missing-key" ++ "]" ∧
    OOUI.msg "ooui-toolbar-more" [] =
      String.mk (OOUI.substDollars [] ("More").data) ∧
    OOUI.substDollars [some "X"] ('$' :: (['1'] ++ [' '])) =
      (match OOUI.paramAt [some "X"] (OOUI.digitsToNat ['1']) with
       | some p => p.data
       | none => '$' :: ['1']) ++ OOUI.substDollars [some "X"] [' '] :=
  ⟨(msg_total_and_subst "missing-key" []).1 (by decide),
   (msg_total_and_subst "ooui-toolbar-more" []).2.1 "More" (by decide),
   (msg_total_and_subst "does-not-matter" [some "X"]).2.2.2.2.2 ['1'] [' ']
     (by decide) (by decide) (by decide)⟩

/-- Length of a step trace: two events per step. -/
theorem stepsTrace_length (st : OOUI.Stage) (n : Nat) :
    (OOUI.stepsTrace st n).length = 2 * n := by
  induction n with
  | zero => rfl
  | succ n ih =>
    simp only [OOUI.stepsTrace, List.length_append, ih, List.length_cons,
      List.length_nil]
    omega

/-- Shape of the `k`-th event of a step trace: step `k / 2` starts at even
positions and completes at odd positions. -/
theorem stepsTrace_get (st : OOUI.Stage) (n k : Nat)
    (hk : k < (OOUI.stepsTrace st n).length) :
    (OOUI.stepsTrace st n).get ⟨k, hk⟩ =
      (if k % 2 = 0 then OOUI.Ev.stepStart st (k / 2)
       else OOUI.Ev.stepComplete st (k / 2)) := by
  induction n with
  | zero => simp [OOUI.stepsTrace] at hk
  | succ n ih =>
    have hlen : (OOUI.stepsTrace st n).length = 2 * n := stepsTrace_length st n
    by_cases h : k < (OOUI.stepsTrace st n).length
    · have heq : (OOUI.stepsTrace st (n + 1)).get ⟨k, hk⟩ =
          (OOUI.stepsTrace st n).get ⟨k, h⟩ := by
        simp only [List.get_eq_getElem, OOUI.stepsTrace]
        exact List.getElem_append_left h
      rw [heq]
      exact ih h
    · have hk2 : k < 2 * n + 2 := by
        have htmp := hk
        simp only [OOUI.stepsTrace, List.length_append, hlen, List.length_cons,
          List.length_nil] at htmp
        omega
      have hge : (OOUI.stepsTrace st n).length ≤ k := by omega
      have hlt2 : k - (OOUI.stepsTrace st n).length <
          [OOUI.Ev.stepStart st n, OOUI.Ev.stepComplete st n].length := by
        simp only [List.length_cons, List.length_nil]
        omega
      have heq : (OOUI.stepsTrace st (n + 1)).get ⟨k, hk⟩ =
          [OOUI.Ev.stepStart st n, OOUI.Ev.stepComplete st n].get
            ⟨k - (OOUI.stepsTrace st n).length, hlt2⟩ := by
        simp only [List.get_eq_getElem, OOUI.stepsTrace]
        exact List.getElem_append_right hge
      rw [heq]
      simp only [List.get_eq_getElem]
      have hcase : k = 2 * n ∨ k = 2 * n + 1 := by omega
      rcases hcase with rfl | rfl
      · have h0 : 2 * n - (OOUI.stepsTrace st n).length = 0 := by omega
        simp only [h0, List.getElem_cons_zero]
        have hmod : 2 * n % 2 = 0 := by omega
        rw [if_pos hmod]
        congr 1
        omega
      · have h1 : 2 * n + 1 - (OOUI.stepsTrace st n).length = 1 := by omega
        simp only [h1, List.getElem_cons_succ, List.getElem_cons_zero]
        have hmod : ¬ (2 * n + 1) % 2 = 0 := by omega
        rw [if_neg hmod]
        congr 1
        omega

/-- Every event of a step trace is a start or completion of one of its
steps. -/
theorem mem_stepsTrace {st : OOUI.Stage} {n : Nat} {e : OOUI.Ev}
    (he : e ∈ OOUI.stepsTrace st n) :
    ∃ i, i < n ∧ (e = OOUI.Ev.stepStart st i ∨ e = OOUI.Ev.stepComplete st i) := by
  induction n with
  | zero => simp [OOUI.stepsTrace] at he
  | succ n ih =>
    simp only [OOUI.stepsTrace, List.mem_append] at he
    rcases he with he | he
    · obtain ⟨i, hi, hcase⟩ := ih he
      exact ⟨i, by omega, hcase⟩
    · simp only [List.mem_cons, List.mem_singleton] at he
      rcases he with rfl | rfl | h
      · exact ⟨n, by omega, Or.inl rfl⟩
      · exact ⟨n, by omega, Or.inr rfl⟩
      · cases h

/-- Every step of a process both starts and completes in its step trace. -/
theorem step_events_mem_stepsTrace (st : OOUI.Stage) {i n : Nat} (h : i < n) :
    OOUI.Ev.stepStart st i ∈ OOUI.stepsTrace st n ∧
    OOUI.Ev.stepComplete st i ∈ OOUI.stepsTrace st n := by
  induction n with
  | zero => omega
  | succ n ih =>
    by_cases hi : i < n
    · obtain ⟨h1, h2⟩ := ih hi
      constructor <;> simp [OOUI.stepsTrace, h1, h2]
    · have : i = n := by omega
      subst this
      constructor <;> simp [OOUI.stepsTrace]

/-- Each stage trace decomposes into its pre-process events, the process
step trace and its post-process events. -/
theorem stageTrace_eq (st : OOUI.Stage) (p : OOUI.Process) :
    OOUI.stageTrace st p =
      OOUI.stagePre st ++ OOUI.execTrace st p ++ OOUI.stagePost st := by
  cases st <;> simp [OOUI.stageTrace, OOUI.stagePre, OOUI.stagePost, OOUI.setupTrace,
    OOUI.readyTrace, OOUI.holdTrace, OOUI.teardownTrace]

/-- Pre-process stage events are neither step events nor class changes nor
promise events. -/
theorem stagePre_shape (st st' : OOUI.Stage) {e : OOUI.Ev} (he : e ∈ OOUI.stagePre st) :
    OOUI.isStepEv st' e = false ∧ OOUI.isClassChange e = false ∧
    (∀ s, e ≠ OOUI.Ev.resolveStage s ∧ e ≠ OOUI.Ev.rejectStage s) ∧
    e ≠ OOUI.Ev.toggleVisible false := by
  cases st <;> simp [OOUI.stagePre] at he <;> subst he <;>
    exact ⟨rfl, rfl, fun s => ⟨by simp, by simp⟩, by simp⟩

/-- Post-process stage events are not step events, never a rejection, and
resolve exactly the stage's own promise, once, with any class changes and
the teardown visibility toggle happening there. -/
theorem stagePost_not_step (st st' : OOUI.Stage) {e : OOUI.Ev}
    (he : e ∈ OOUI.stagePost st) : OOUI.isStepEv st' e = false := by
  cases st <;> simp [OOUI.stagePost] at he <;>
    rcases he with rfl | rfl | rfl <;> rfl

/-- Step-trace events of one stage are not step events of another stage,
are not class changes, not promise events and not visibility toggles. -/
theorem stepsTrace_shape {st : OOUI.Stage} {n : Nat} {e : OOUI.Ev}
    (he : e ∈ OOUI.stepsTrace st n) (st' : OOUI.Stage) (hne : st ≠ st') :
    OOUI.isStepEv st' e = false := by
  obtain ⟨i, _, hcase⟩ := mem_stepsTrace he
  have hb : (st == st') = false := by
    simp [hne]
  rcases hcase with rfl | rfl <;> simp [OOUI.isStepEv, hb]

/-- Step-trace events are never class changes, promise events or
visibility toggles. -/
theorem stepsTrace_only_steps {st : OOUI.Stage} {n : Nat} {e : OOUI.Ev}
    (he : e ∈ OOUI.stepsTrace st n) :
    OOUI.isClassChange e = false ∧
    (∀ s, e ≠ OOUI.Ev.resolveStage s ∧ e ≠ OOUI.Ev.rejectStage s) ∧
    (∀ b, e ≠ OOUI.Ev.toggleVisible b) := by
  obtain ⟨i, _, hcase⟩ := mem_stepsTrace he
  rcases hcase with rfl | rfl <;>
    exact ⟨rfl, fun s => ⟨by simp, by simp⟩, fun b => by simp⟩

/-- Ordering of positions in a concatenation: an event kind occurring only
in the first part precedes an event kind occurring only in the second
part. -/
theorem append_index_order {A B : List OOUI.Ev} (f g : OOUI.Ev → Bool)
    (hA : ∀ e ∈ A, g e = false) (hB : ∀ e ∈ B, f e = false)
    (i j : Nat) (hi : i < (A ++ B).length) (hj : j < (A ++ B).length)
    (hfi : f ((A ++ B).get ⟨i, hi⟩) = true)
    (hgj : g ((A ++ B).get ⟨j, hj⟩) = true) : i < j := by
  simp only [List.get_eq_getElem] at hfi hgj
  by_cases hiA : i < A.length
  · by_cases hjA : j < A.length
    · exfalso
      rw [List.getElem_append_left hjA] at hgj
      have hfalse := hA (A.get ⟨j, hjA⟩) (A.get_mem j hjA)
      simp only [List.get_eq_getElem] at hfalse
      rw [hfalse] at hgj
      cases hgj
    · omega
  · exfalso
    have hge : A.length ≤ i := by omega
    rw [List.getElem_append_right hge] at hfi
    have hlt : i - A.length < B.length := by
      simp only [List.length_append] at hi
      omega
    have hfalse := hB (B.get ⟨i - A.length, hlt⟩) (B.get_mem _ hlt)
    simp only [List.get_eq_getElem] at hfalse
    rw [hfalse] at hfi
    cases hfi

/-- A stage trace contains no step events of a different stage. -/
theorem stageTrace_no_other_step (st st' : OOUI.Stage) (hne : st ≠ st')
    (p : OOUI.Process) {e : OOUI.Ev} (he : e ∈ OOUI.stageTrace st p) :
    OOUI.isStepEv st' e = false := by
  rw [stageTrace_eq] at he
  simp only [List.mem_append] at he
  rcases he with (he | he) | he
  · exact (stagePre_shape st st' he).1
  · exact stepsTrace_shape he st' hne
  · exact stagePost_not_step st st' he

/-- Claim C1: the lifecycle stages run in the fixed order.  During opening
every setup-process step event precedes every ready-process step event;
during closing every hold-process step event precedes every
teardown-process step event; and within a stage's process the steps run in
sequence: each step starts before it completes, and step `i` completes
before any later step `j` starts. -/
theorem lifecycle_stage_order (setupP readyP holdP teardownP : OOUI.Process)
    (st : OOUI.Stage) (n : Nat) :
    (∀ i j (hi : i < (OOUI.openingTrace setupP readyP).length)
        (hj : j < (OOUI.openingTrace setupP readyP).length),
      OOUI.isStepEv OOUI.Stage.setup ((OOUI.openingTrace setupP readyP).get ⟨i, hi⟩) = true →
      OOUI.isStepEv OOUI.Stage.ready ((OOUI.openingTrace setupP readyP).get ⟨j, hj⟩) = true →
      i < j) ∧
    (∀ i j (hi : i < (OOUI.closingTrace holdP teardownP).length)
        (hj : j < (OOUI.closingTrace holdP teardownP).length),
      OOUI.isStepEv OOUI.Stage.hold ((OOUI.closingTrace holdP teardownP).get ⟨i, hi⟩) = true →
      OOUI.isStepEv OOUI.Stage.teardown
        ((OOUI.closingTrace holdP teardownP).get ⟨j, hj⟩) = true →
      i < j) ∧
    (∀ k₁ k₂ i j (h₁ : k₁ < (OOUI.stepsTrace st n).length)
        (h₂ : k₂ < (OOUI.stepsTrace st n).length),
      (OOUI.stepsTrace st n).get ⟨k₁, h₁⟩ = OOUI.Ev.stepComplete st i →
      (OOUI.stepsTrace st n).get ⟨k₂, h₂⟩ = OOUI.Ev.stepStart st j →
      i < j → k₁ < k₂) ∧
    (∀ k₁ k₂ i (h₁ : k₁ < (OOUI.stepsTrace st n).length)
        (h₂ : k₂ < (OOUI.stepsTrace st n).length),
      (OOUI.stepsTrace st n).get ⟨k₁, h₁⟩ = OOUI.Ev.stepStart st i →
      (OOUI.stepsTrace st n).get ⟨k₂, h₂⟩ = OOUI.Ev.stepComplete st i →
      k₁ < k₂) := by
  refine ⟨?_, ?_, ?_, ?_⟩
  · intro i j hi hj hfi hgj
    exact append_index_order (OOUI.isStepEv OOUI.Stage.setup) (OOUI.isStepEv OOUI.Stage.ready)
      (fun e he => stageTrace_no_other_step OOUI.Stage.setup OOUI.Stage.ready
        (by simp) setupP he)
      (fun e he => stageTrace_no_other_step OOUI.Stage.ready OOUI.Stage.setup
        (by simp) readyP he)
      i j hi hj hfi hgj
  · intro i j hi hj hfi hgj
    exact append_index_order (OOUI.isStepEv OOUI.Stage.hold) (OOUI.isStepEv OOUI.Stage.teardown)
      (fun e he => stageTrace_no_other_step OOUI.Stage.hold OOUI.Stage.teardown
        (by simp) holdP he)
      (fun e he => stageTrace_no_other_step OOUI.Stage.teardown OOUI.Stage.hold
        (by simp) teardownP he)
      i j hi hj hfi hgj
  · intro k₁ k₂ i j h₁ h₂ hc hs hij
    rw [stepsTrace_get st n k₁ h₁] at hc
    rw [stepsTrace_get st n k₂ h₂] at hs
    by_cases e1 : k₁ % 2 = 0
    · rw [if_pos e1] at hc
      cases hc
    · rw [if_neg e1] at hc
      injection hc with hst hdiv
      by_cases e2 : k₂ % 2 = 0
      · rw [if_pos e2] at hs
        injection hs with hst2 hdiv2
        omega
      · rw [if_neg e2] at hs
        cases hs
  · intro k₁ k₂ i h₁ h₂ hsrt hcmp
    rw [stepsTrace_get st n k₁ h₁] at hsrt
    rw [stepsTrace_get st n k₂ h₂] at hcmp
    by_cases e1 : k₁ % 2 = 0
    · rw [if_pos e1] at hsrt
      injection hsrt with hst hdiv
      by_cases e2 : k₂ % 2 = 0
      · rw [if_pos e2] at hcmp
        cases hcmp
      · rw [if_neg e2] at hcmp
        injection hcmp with hst2 hdiv2
        omega
    · rw [if_neg e1] at hsrt
      cases hsrt

/-- Witness for `lifecycle_stage_order`: in a concrete opening trace the
setup step at position 1 precedes the ready step at position 6. -/
theorem lifecycle_stage_order_witness :
    OOUI.isStepEv OOUI.Stage.setup
      ((OOUI.openingTrace [OOUI.StepKind.sync] [OOUI.StepKind.deferred]).get
        ⟨1, by decide⟩) = true ∧
    OOUI.isStepEv OOUI.Stage.ready
      ((OOUI.openingTrace [OOUI.StepKind.sync] [OOUI.StepKind.deferred]).get
        ⟨6, by decide⟩) = true ∧
    (1 : Nat) < 6 :=
  ⟨by decide, by decide,
    (lifecycle_stage_order [OOUI.StepKind.sync] [OOUI.StepKind.deferred] [] []
        OOUI.Stage.setup 0).1 1 6 (by decide) (by decide) (by decide) (by decide)⟩

/-- Counterexample to claim C6 as stated: it is not true that every state
change (CSS class change or visibility toggle) of a stage is applied after
the stage's process steps — in the setup stage the visibility toggle at
position 0 precedes the setup process step at position 1. -/
theorem setup_toggle_not_after_process :
    ¬ (∀ i j (hi : i < (OOUI.setupTrace [OOUI.StepKind.sync]).length)
        (hj : j < (OOUI.setupTrace [OOUI.StepKind.sync]).length),
        OOUI.isStateChange ((OOUI.setupTrace [OOUI.StepKind.sync]).get ⟨i, hi⟩) = true →
        OOUI.isStepEv OOUI.Stage.setup
          ((OOUI.setupTrace [OOUI.StepKind.sync]).get ⟨j, hj⟩) = true →
        j < i) := by
  intro h
  have := h 0 1 (by decide) (by decide) (by decide) (by decide)
  omega

/-- Claim C6 (amended): once a stage starts it runs to completion and
cannot be cancelled.  Each stage's promise is resolved exactly once and
never rejected; every step of the stage's process starts and completes in
the stage's trace; CSS class additions/removals happen only after all
process steps; the teardown visibility toggle happens after the teardown
process; and the setup visibility toggle is applied first, before the setup
process begins (rather than after it completes). -/
theorem lifecycle_no_cancellation (st : OOUI.Stage) (p : OOUI.Process) :
    (OOUI.stageTrace st p).count (OOUI.Ev.resolveStage st) = 1 ∧
    (∀ s, OOUI.Ev.rejectStage s ∉ OOUI.stageTrace st p) ∧
    (∀ i, i < p.length →
      OOUI.Ev.stepStart st i ∈ OOUI.stageTrace st p ∧
      OOUI.Ev.stepComplete st i ∈ OOUI.stageTrace st p) ∧
    (∀ i j (hi : i < (OOUI.stageTrace st p).length)
        (hj : j < (OOUI.stageTrace st p).length),
      OOUI.isStepEv st ((OOUI.stageTrace st p).get ⟨i, hi⟩) = true →
      OOUI.isClassChange ((OOUI.stageTrace st p).get ⟨j, hj⟩) = true → i < j) ∧
    (∀ i j (hi : i < (OOUI.teardownTrace p).length)
        (hj : j < (OOUI.teardownTrace p).length),
      OOUI.isStepEv OOUI.Stage.teardown ((OOUI.teardownTrace p).get ⟨i, hi⟩) = true →
      (OOUI.teardownTrace p).get ⟨j, hj⟩ = OOUI.Ev.toggleVisible false → i < j) ∧
    (∀ h0 : 0 < (OOUI.setupTrace p).length,
      (OOUI.setupTrace p).get ⟨0, h0⟩ = OOUI.Ev.toggleVisible true) ∧
    (∀ j (hj : j < (OOUI.setupTrace p).length),
      OOUI.isStepEv OOUI.Stage.setup ((OOUI.setupTrace p).get ⟨j, hj⟩) = true → 0 < j) := by
  refine ⟨?_, ?_, ?_, ?_, ?_, ?_, ?_⟩
  · rw [stageTrace_eq, List.count_append, List.count_append]
    have h1 : (OOUI.stagePre st).count (OOUI.Ev.resolveStage st) = 0 := by
      rw [List.count_eq_zero]
      intro hmem
      exact ((stagePre_shape st st hmem).2.2.1 st).1 rfl
    have h2 : (OOUI.execTrace st p).count (OOUI.Ev.resolveStage st) = 0 := by
      rw [List.count_eq_zero]
      intro hmem
      exact ((stepsTrace_only_steps hmem).2.1 st).1 rfl
    have h3 : (OOUI.stagePost st).count (OOUI.Ev.resolveStage st) = 1 := by
      cases st <;> decide
    rw [h1, h2, h3]
  · intro s hmem
    rw [stageTrace_eq] at hmem
    rcases List.mem_append.mp hmem with hmem | hmem
    · rcases List.mem_append.mp hmem with hmem | hmem
      · exact ((stagePre_shape st st hmem).2.2.1 s).2 rfl
      · exact ((stepsTrace_only_steps hmem).2.1 s).2 rfl
    · cases st <;> simp [OOUI.stagePost] at hmem
  · intro i hi
    have hm := step_events_mem_stepsTrace st hi
    constructor
    · rw [stageTrace_eq]
      exact List.mem_append.mpr (Or.inl (List.mem_append.mpr (Or.inr hm.1)))
    · rw [stageTrace_eq]
      exact List.mem_append.mpr (Or.inl (List.mem_append.mpr (Or.inr hm.2)))
  · have hA : ∀ e ∈ OOUI.stagePre st ++ OOUI.execTrace st p,
        OOUI.isClassChange e = false := by
      intro e he
      rcases List.mem_append.mp he with he | he
      · exact (stagePre_shape st st he).2.1
      · exact (stepsTrace_only_steps he).1
    have hB : ∀ e ∈ OOUI.stagePost st, OOUI.isStepEv st e = false :=
      fun e he => stagePost_not_step st st he
    intro i j hi hj hstep hclass
    cases st
    all_goals exact append_index_order _ _ hA hB i j hi hj hstep hclass
  · intro i j hi hj hstep htog
    have hA : ∀ e ∈ OOUI.execTrace OOUI.Stage.teardown p,
        (e == OOUI.Ev.toggleVisible false) = false := by
      intro e he
      have hne := (stepsTrace_only_steps he).2.2 false
      simpa using hne
    have hB : ∀ e ∈ OOUI.stagePost OOUI.Stage.teardown,
        OOUI.isStepEv OOUI.Stage.teardown e = false :=
      fun e he => stagePost_not_step _ _ he
    exact append_index_order (OOUI.isStepEv OOUI.Stage.teardown)
      (fun e => e == OOUI.Ev.toggleVisible false) hA hB i j hi hj hstep (by simpa using htog)
  · intro h0
    rfl
  · intro j hj hstep
    cases j with
    | zero =>
      rw [show (OOUI.setupTrace p).get ⟨0, hj⟩ = OOUI.Ev.toggleVisible true from rfl] at hstep
      cases hstep
    | succ j => omega

/-- Witness for `lifecycle_no_cancellation` at a concrete stage and
process. -/
theorem lifecycle_no_cancellation_witness :
    (OOUI.Ev.stepComplete OOUI.Stage.teardown 0 ∈
      OOUI.stageTrace OOUI.Stage.teardown [OOUI.StepKind.deferred]) ∧
    (OOUI.stageTrace OOUI.Stage.teardown [OOUI.StepKind.deferred]).count
      (OOUI.Ev.resolveStage OOUI.Stage.teardown) = 1 :=
  ⟨((lifecycle_no_cancellation OOUI.Stage.teardown [OOUI.StepKind.deferred]).2.2.1 0
      (by decide)).2,
   (lifecycle_no_cancellation OOUI.Stage.teardown [OOUI.StepKind.deferred]).1⟩

/-- With a callback supplied, the transplant loop creates exactly the poll
nodes of the external (link) style sheets, in document order. -/
theorem transplantLoop_true_eq_filter (sheets : List OOUI.SheetInfo) :
    OOUI.transplantLoop true sheets = sheets.filter (fun s => s.isLink) := by
  induction sheets with
  | nil => rfl
  | cons s rest ih =>
    cases hs : s.isLink <;>
      simp [OOUI.transplantLoop, List.filter_cons, hs, ih]

/-- Every poll node's load tick is bounded by `maxLoad`. -/
theorem le_maxLoad {l : List OOUI.SheetInfo} {s : OOUI.SheetInfo} (hs : s ∈ l) :
    s.loadedAt ≤ OOUI.maxLoad l := by
  induction l with
  | nil => cases hs
  | cons a rest ih =>
    rcases List.mem_cons.mp hs with rfl | hs
    · simp [OOUI.maxLoad]
    · have := ih hs
      simp only [OOUI.maxLoad, List.foldr_cons] at *
      omega

/-- The polling recursion fires: given enough fuel it returns a tick no
earlier than its start, no earlier than every pending node's load tick,
and its trace is the removal of the poll nodes followed by the single
callback invocation. -/
theorem pollFire_spec (fuel : Nat) :
    ∀ (t : Nat) (pending : List OOUI.SheetInfo),
      (∀ s ∈ pending, s.loadedAt ≤ t + fuel) →
      ∃ T, OOUI.pollFire pending t (fuel + 1) = some T ∧ t ≤ T ∧
        (∀ s ∈ pending, s.loadedAt ≤ T) ∧
        OOUI.pollTrace pending t (fuel + 1) =
          [OOUI.FrameEv.pollNodesRemoved, OOUI.FrameEv.callbackInvoked] := by
  induction fuel with
  | zero =>
    intro t pending hload
    have hdrop : OOUI.dropLoaded t pending = [] := by
      rw [OOUI.dropLoaded, List.dropWhile_eq_nil_iff]
      intro s hs
      simpa using hload s hs
    exact ⟨t, by simp [OOUI.pollFire, hdrop], le_refl t,
      fun s hs => by simpa using hload s hs, by simp [OOUI.pollTrace, hdrop]⟩
  | succ f ih =>
    intro t pending hload
    by_cases hdrop : OOUI.dropLoaded t pending = []
    · have hall : ∀ s ∈ pending, s.loadedAt ≤ t := by
        intro s hs
        have := (List.dropWhile_eq_nil_iff).mp hdrop s hs
        simpa using this
      exact ⟨t, by simp [OOUI.pollFire, hdrop], le_refl t, hall,
        by simp [OOUI.pollTrace, hdrop]⟩
    · have hsub : ∀ s ∈ OOUI.dropLoaded t pending, s.loadedAt ≤ (t + 1) + f := by
        intro s hs
        have hmem : s ∈ pending := (List.dropWhile_suffix _).sublist.subset hs
        have := hload s hmem
        omega
      obtain ⟨T, hfire, hT, hallT, htrace⟩ := ih (t + 1) (OOUI.dropLoaded t pending) hsub
      refine ⟨T, ?_, by omega, ?_, ?_⟩
      · simp only [OOUI.pollFire]
        rw [if_neg hdrop]
        exact hfire
      · intro s hs
        by_cases hmem : s ∈ OOUI.dropLoaded t pending
        · exact hallT s hmem
        · have hsplit :=
            List.takeWhile_append_dropWhile (fun s => decide (s.loadedAt ≤ t)) pending
          have htake : s ∈ pending.takeWhile (fun s => decide (s.loadedAt ≤ t)) := by
            have hs' := hs
            rw [← hsplit] at hs'
            rcases List.mem_append.mp hs' with h | h
            · exact h
            · exact absurd h hmem
          have hle := List.mem_takeWhile_imp htake
          simp only [decide_eq_true_eq] at hle
          omega
      · simp only [OOUI.pollTrace]
        rw [if_neg hdrop]
        exact htrace

/-- Claim C5: with a callback, `transplantStyles` creates one poll node per
external (link) style sheet; polling removes the poll nodes and invokes the
callback exactly once, only at a tick by which every poll node has been
observed loaded; and with no external style sheet the callback is invoked
on the first poll. -/
theorem transplantStyles_poll (sheets : List OOUI.SheetInfo) :
    OOUI.transplantLoop true sheets = sheets.filter (fun s => s.isLink) ∧
    (∃ T, OOUI.pollFire (OOUI.transplantLoop true sheets) 1
        (OOUI.maxLoad (OOUI.transplantLoop true sheets) + 1) = some T ∧
      1 ≤ T ∧
      (∀ s ∈ OOUI.transplantLoop true sheets, s.loadedAt ≤ T) ∧
      OOUI.pollTrace (OOUI.transplantLoop true sheets) 1
          (OOUI.maxLoad (OOUI.transplantLoop true sheets) + 1) =
        [OOUI.FrameEv.pollNodesRemoved, OOUI.FrameEv.callbackInvoked]) ∧
    (sheets.filter (fun s => s.isLink) = [] →
      OOUI.pollFire (OOUI.transplantLoop true sheets) 1 1 = some 1) := by
  refine ⟨transplantLoop_true_eq_filter sheets, ?_, ?_⟩
  · exact pollFire_spec (OOUI.maxLoad (OOUI.transplantLoop true sheets)) 1
      (OOUI.transplantLoop true sheets)
      (fun s hs => Nat.le_trans (le_maxLoad hs) (by omega))
  · intro hempty
    rw [transplantLoop_true_eq_filter sheets, hempty]
    decide

/-- Witness for `transplantStyles_poll` at concrete style-sheet lists. -/
theorem transplantStyles_poll_witness :
    OOUI.transplantLoop true
        [⟨true, 2⟩, ⟨false, 0⟩, ⟨true, 1⟩] =
      List.filter (fun s => s.isLink)
        [⟨true, 2⟩, ⟨false, 0⟩, ⟨true, 1⟩] ∧
    OOUI.pollFire (OOUI.transplantLoop true [⟨false, 5⟩]) 1 1 = some 1 :=
  ⟨(transplantStyles_poll [⟨true, 2⟩, ⟨false, 0⟩, ⟨true, 1⟩]).1,
   (transplantStyles_poll [⟨false, 5⟩]).2.2 (by decide)⟩

/-- Effect of `List.set` on `countP`: the count is corrected by the
predicate's value at the old and new entries. -/
theorem countP_set_add (p : OOUI.Phase → Bool) (s : List OOUI.Phase) (w : Nat)
    (hw : w < s.length) (x : OOUI.Phase) :
    (s.set w x).countP p + (if p (s.get ⟨w, hw⟩) then 1 else 0) =
      s.countP p + (if p x then 1 else 0) := by
  induction s generalizing w with
  | nil => cases hw
  | cons a rest ih =>
    cases w with
    | zero =>
      simp only [List.set_cons_zero, List.countP_cons, List.get_eq_getElem,
        List.getElem_cons_zero]
      omega
    | succ w =>
      have hw' : w < rest.length := by simpa using hw
      have hrec := ih w hw'
      simp only [List.get_eq_getElem] at hrec
      simp only [List.set_cons_succ, List.countP_cons, List.get_eq_getElem,
        List.getElem_cons_succ]
      omega

/-- An all-closed manager state has no active window, and each of its
entries is closed. -/
theorem allClosed_spec {s : List OOUI.Phase} (h : OOUI.allClosed s = true) :
    OOUI.activeCount s = 0 ∧ ∀ x ∈ s, x = OOUI.Phase.closed := by
  have hall : ∀ x ∈ s, x = OOUI.Phase.closed := by
    intro x hx
    have := List.all_eq_true.mp h x hx
    simpa using this
  refine ⟨?_, hall⟩
  rw [OOUI.activeCount, List.countP_eq_zero]
  intro x hx
  simp [hall x hx]

/-- Claim C7: in every reachable state of a window manager's lifecycle
state machine, at most one managed window is open or in its
opening/closing transition. -/
theorem manager_one_window_invariant {n : Nat} {s : List OOUI.Phase}
    (h : OOUI.Reachable n s) : OOUI.activeCount s ≤ 1 := by
  induction h with
  | init =>
    have h0 := (allClosed_spec (s := List.replicate n OOUI.Phase.closed) (by
      rw [OOUI.allClosed, List.all_eq_true]
      intro x hx
      simp [List.eq_of_mem_replicate hx])).1
    omega
  | step a hr hstep ih =>
    rename_i s s'
    cases a with
    | beginOpen w =>
      simp only [OOUI.mgrStep] at hstep
      by_cases hcond : (decide (w < s.length) && OOUI.allClosed s) = true
      · rw [if_pos hcond] at hstep
        cases hstep
        have hparts : w < s.length ∧ OOUI.allClosed s = true := by
          simpa using hcond
        have hw : w < s.length := hparts.1
        have hclosed := allClosed_spec hparts.2
        have hget : s.get ⟨w, hw⟩ = OOUI.Phase.closed :=
          hclosed.2 _ (by simp)
        have hc := countP_set_add (fun q => q != OOUI.Phase.closed) s w hw OOUI.Phase.opening
        rw [hget] at hc
        simp only [OOUI.activeCount] at *
        have h0 := hclosed.1
        simp only [OOUI.activeCount] at h0
        simp at hc
        omega
      · rw [if_neg hcond] at hstep
        cases hstep
    | finishOpen w =>
      simp only [OOUI.mgrStep] at hstep
      by_cases hcond : (s.get? w == some OOUI.Phase.opening) = true
      · rw [if_pos hcond] at hstep
        cases hstep
        have hgq : s.get? w = some OOUI.Phase.opening := by simpa using hcond
        have hw : w < s.length := (List.get?_eq_some.mp hgq).1
        have hget : s.get ⟨w, hw⟩ = OOUI.Phase.opening := by
          have := (List.get?_eq_some.mp hgq).2
          simpa using this
        have hc := countP_set_add (fun q => q != OOUI.Phase.closed) s w hw OOUI.Phase.opened
        rw [hget] at hc
        simp only [OOUI.activeCount] at *
        simp at hc
        omega
      · rw [if_neg hcond] at hstep
        cases hstep
    | beginClose w =>
      simp only [OOUI.mgrStep] at hstep
      by_cases hcond : (s.get? w == some OOUI.Phase.opened) = true
      · rw [if_pos hcond] at hstep
        cases hstep
        have hgq : s.get? w = some OOUI.Phase.opened := by simpa using hcond
        have hw : w < s.length := (List.get?_eq_some.mp hgq).1
        have hget : s.get ⟨w, hw⟩ = OOUI.Phase.opened := by
          have := (List.get?_eq_some.mp hgq).2
          simpa using this
        have hc := countP_set_add (fun q => q != OOUI.Phase.closed) s w hw OOUI.Phase.closing
        rw [hget] at hc
        simp only [OOUI.activeCount] at *
        simp at hc
        omega
      · rw [if_neg hcond] at hstep
        cases hstep
    | finishClose w =>
      simp only [OOUI.mgrStep] at hstep
      by_cases hcond : (s.get? w == some OOUI.Phase.closing) = true
      · rw [if_pos hcond] at hstep
        cases hstep
        have hgq : s.get? w = some OOUI.Phase.closing := by simpa using hcond
        have hw : w < s.length := (List.get?_eq_some.mp hgq).1
        have hget : s.get ⟨w, hw⟩ = OOUI.Phase.closing := by
          have := (List.get?_eq_some.mp hgq).2
          simpa using this
        have hc := countP_set_add (fun q => q != OOUI.Phase.closed) s w hw OOUI.Phase.closed
        rw [hget] at hc
        simp only [OOUI.activeCount] at *
        simp at hc
        omega
      · rw [if_neg hcond] at hstep
        cases hstep

/-- Witness for `manager_one_window_invariant`: a manager of two windows
that has begun opening window 0 has one active window. -/
theorem manager_one_window_invariant_witness :
    OOUI.activeCount [OOUI.Phase.opening, OOUI.Phase.closed] ≤ 1 :=
  manager_one_window_invariant
    (@OOUI.Reachable.step 2 (List.replicate 2 OOUI.Phase.closed)
      [OOUI.Phase.opening, OOUI.Phase.closed] (OOUI.MgrAct.beginOpen 0)
      (@OOUI.Reachable.init 2) (by decide))
